import Mathlib

/-!
Verification of the job-queue and transcoding-pipeline core of the
streaming-service repository, against its natural-language specification.

The queue model is a shallow embedding of `internal/queue/redis.go`:
the Redis sorted set `streaming:jobs:pending` becomes a list of
member/score pairs, the plain sets `streaming:jobs:processing` and
`streaming:jobs:dead` become lists of members.  A sorted-set member in
the source is the JSON serialization of the job; serialization is
injective and lists fields in struct order (id, type, media_id,
priority, payload, created_at, attempts), so members are modelled as
`Job` values, with `BZPOPMIN`'s byte-lexicographic tie-break on equal
scores modelled as the field-lexicographic order `jobLt` in the same
field order.  Go `time.Time` is modelled at the second granularity used
by the score formula (`time.Now().Unix()`); the wall clock is an
explicit `now : Nat` argument, both `time.Now()` calls inside `Enqueue`
reading the same instant.  Storage-layer failures of single Redis
commands are not modelled except where the source compensates for them
(`SADD` to the processing set inside `Dequeue`, driven by a Boolean).
-/

/-- One queued unit of work (`queue.Job`, redis.go lines 28-36).
`payload` keeps Go's `map[string]string` as an association list and
`createdAt` keeps `time.Time` as Unix seconds. -/
structure Job where
  id : String
  jobType : String
  mediaID : String
  priority : Int
  payload : List (String × String)
  createdAt : Nat
  attempts : Int
deriving DecidableEq, Repr

/-- Lexicographic order on character lists: the byte order Redis uses
to compare serialized members with equal scores (code-point order,
which agrees with byte order on the ASCII alphabet these values use). -/
def charListLt : List Char → List Char → Bool
  | [], [] => false
  | [], _ :: _ => true
  | _ :: _, [] => false
  | a :: as, b :: bs =>
    if a < b then true else if b < a then false else charListLt as bs

/-- Byte order on strings. -/
def strLtB (a b : String) : Bool := charListLt a.data b.data

/-- Lexicographic order on payload association lists, mirroring
byte order of the serialized (key-sorted) JSON object. -/
def payloadLt : List (String × String) → List (String × String) → Bool
  | [], [] => false
  | [], _ :: _ => true
  | _ :: _, [] => false
  | a :: as, b :: bs =>
    if strLtB a.1 b.1 then true
    else if strLtB b.1 a.1 then false
    else if strLtB a.2 b.2 then true
    else if strLtB b.2 a.2 then false
    else payloadLt as bs

/-- Order on sorted-set members: field-lexicographic in the order the
fields appear in the job's JSON serialization, which is the order in
which `BZPOPMIN` compares the serialized bytes of two members that have
equal scores. -/
def jobLt (a b : Job) : Bool :=
  if strLtB a.id b.id then true
  else if strLtB b.id a.id then false
  else if strLtB a.jobType b.jobType then true
  else if strLtB b.jobType a.jobType then false
  else if strLtB a.mediaID b.mediaID then true
  else if strLtB b.mediaID a.mediaID then false
  else if a.priority < b.priority then true
  else if b.priority < a.priority then false
  else if payloadLt a.payload b.payload then true
  else if payloadLt b.payload a.payload then false
  else if a.createdAt < b.createdAt then true
  else if b.createdAt < a.createdAt then false
  else decide (a.attempts < b.attempts)

/-- The three Redis keys used by the queue, as one state: the pending
sorted set, the processing set and the dead-letter set. -/
structure QueueState where
  pending : List (Job × Int)
  processing : List Job
  dead : List Job
deriving DecidableEq, Repr

def QueueState.empty : QueueState := ⟨[], [], []⟩

/-- Redis `ZADD`: update the score of an existing member, otherwise
add the member with its score. -/
def zadd (l : List (Job × Int)) (m : Job) (score : Int) : List (Job × Int) :=
  if l.any (fun p => p.1 == m) then
    l.map (fun p => if p.1 == m then (m, score) else p)
  else l ++ [(m, score)]

/-- Redis `SADD` on a plain set. -/
def sadd (s : List Job) (j : Job) : List Job :=
  if j ∈ s then s else s ++ [j]

/-- Redis `SREM` on a plain set: removing an absent member is a no-op
that reports no error. -/
def srem (s : List Job) (j : Job) : List Job :=
  s.filter (fun x => x != j)

/-- Strict order on sorted-set entries: by score, ties by member bytes. -/
def entryLt (a b : Job × Int) : Prop :=
  a.2 < b.2 ∨ (a.2 = b.2 ∧ jobLt a.1 b.1 = true)

instance (a b : Job × Int) : Decidable (entryLt a b) :=
  inferInstanceAs (Decidable (_ ∨ _))

/-- The least entry of `best :: l` under `entryLt`. -/
def findMin (best : Job × Int) : List (Job × Int) → Job × Int
  | [] => best
  | x :: xs => findMin (if entryLt x best then x else best) xs

/-- Redis `BZPOPMIN`: remove and return the entry with the least score
(ties by member byte order); `none` models the timeout elapsing on an
empty set. -/
def bzPopMin (l : List (Job × Int)) : Option ((Job × Int) × List (Job × Int)) :=
  match l with
  | [] => none
  | x :: xs =>
    let m := findMin x xs
    some (m, l.erase m)

/-- `RedisQueue.Enqueue` (redis.go lines 83-102): unconditionally
overwrites `job.CreatedAt` with the current time (line 84), then
inserts the serialized job into the pending sorted set with score
`time.Now().Unix() - job.Priority*1000` (line 92).  Both `time.Now()`
calls are modelled as the same instant `now`.  The mutated job object
is returned alongside the new state, modelling the in-place pointer
mutation seen by the caller. -/
def enqueue (now : Nat) (st : QueueState) (job : Job) : QueueState × Job :=
  let job' := { job with createdAt := now }
  let score : Int := (now : Int) - job'.priority * 1000
  ({ st with pending := zadd st.pending job' score }, job')

/-- Errors a `Dequeue` caller can observe in this model. -/
inductive QueueErr where
  | noJobAvailable
  | trackProcessingFailed
deriving DecidableEq, Repr

/-- `RedisQueue.Dequeue` (redis.go lines 105-135): `BZPOPMIN` from the
pending set; on timeout return `(nil, ErrNoJobAvailable)`; on success
`SADD` the member into the processing set and return the job, and if
that `SADD` fails (`saddOk = false`) re-enqueue the job via the normal
`Enqueue` path and return `(nil, error)`. -/
def dequeue (now : Nat) (saddOk : Bool) (st : QueueState) :
    QueueState × Option Job × Option QueueErr :=
  match bzPopMin st.pending with
  | none => (st, none, some .noJobAvailable)
  | some (e, rest) =>
    let st1 := { st with pending := rest }
    if saddOk then
      ({ st1 with processing := sadd st1.processing e.1 }, some e.1, none)
    else
      ((enqueue now st1 e.1).1, none, some .trackProcessingFailed)

/-- `RedisQueue.Ack` (redis.go lines 138-149): `SREM` the serialized
job from the processing set; no error when the member is absent. -/
def ackJob (st : QueueState) (job : Job) : QueueState × Option QueueErr :=
  ({ st with processing := srem st.processing job }, none)

/-- `RedisQueue.Nack` (redis.go lines 152-176): serialize the job
(`data`, line 154) and `SREM` it from the processing set; increment
`job.Attempts`; if the incremented count is below 3 re-enqueue via
`Enqueue`, otherwise `SADD` the previously serialized `data` — still
carrying the pre-increment attempt count — into the dead-letter set.
Returns the new state, the mutated job object and the error slot. -/
def nack (now : Nat) (st : QueueState) (job : Job) :
    QueueState × Job × Option QueueErr :=
  let d := job
  let st1 := { st with processing := srem st.processing d }
  let job1 := { job with attempts := job.attempts + 1 }
  if job1.attempts < 3 then
    let r := enqueue now st1 job1
    (r.1, r.2, none)
  else
    ({ st1 with dead := sadd st1.dead d }, job1, none)

example : (enqueue 7 QueueState.empty
    ⟨"j", "transcode", "m", 5, [], 0, 0⟩).1.pending
    = [(⟨"j", "transcode", "m", 5, [], 7, 0⟩, (7 : Int) - 5000)] := by decide

example : (dequeue 0 true (enqueue 7 QueueState.empty
    ⟨"j", "transcode", "m", 5, [], 0, 0⟩).1).2.1
    = some ⟨"j", "transcode", "m", 5, [], 7, 0⟩ := by decide

/-!
Pipeline model: shallow embedding of `internal/service/transcode/service.go`
(`ProcessMedia`, `uploadProcessedFiles`) together with the parts of the
ffmpeg processor it drives (`Processor.Process` from the ffmpeg package and
`StrategyExecutor.Execute` from the processor package).  External
collaborators (DynamoDB metadata store, S3 object store, ffmpeg/ffprobe
subprocesses, the filesystem) are capabilities whose success or failure is
supplied by a `PipelineEnv`; the run is summarised as the ordered trace of
its externally visible effects (status updates, S3 uploads, rendition
records), each tagged with whether the collaborator call succeeded.
-/

/-- `domain.MediaStatus` (media.go lines 18-23). -/
inductive MediaStatus where
  | pending
  | processing
  | completed
  | failed
deriving DecidableEq, Repr

/-- `processor.ProfileConfig` (factory.go lines 31-38). -/
structure ProfileConfig where
  name : String
  width : Int
  height : Int
  videoBitrate : String
  audioBitrate : String
  codec : String
deriving DecidableEq, Repr

/-- The four hard-coded video profiles of `ProcessMedia`
(service.go lines 83-88). -/
def transcodeProfiles : List ProfileConfig :=
  [⟨"1080p", 1920, 1080, "5000k", "192k", "h264"⟩,
   ⟨"720p", 1280, 720, "2500k", "128k", "h264"⟩,
   ⟨"480p", 854, 480, "1000k", "96k", "h264"⟩,
   ⟨"360p", 640, 360, "500k", "64k", "h264"⟩]

/-- `processor.RenditionOutput` (factory.go lines 50-58), restricted to
the fields `StrategyExecutor.Execute` populates; `bitrate` stays at its
zero value there. -/
structure RenditionOutput where
  name : String
  width : Int
  height : Int
  bitrate : Int
  codec : String
  playlistPath : String
deriving DecidableEq, Repr

/-- `domain.Rendition` (media.go lines 60-68), restricted to the fields
`ProcessMedia` populates. -/
structure Rendition where
  name : String
  width : Int
  height : Int
  bitrate : Int
  codec : String
  playlistKey : String
deriving DecidableEq, Repr

/-- `processor.ProcessOutput` (factory.go lines 41-47), restricted to
the fields the transcode service reads. -/
structure ProcessOutput where
  mediaID : String
  renditions : List RenditionOutput
  masterPath : String
deriving DecidableEq, Repr

/-- Success/failure outcomes of every external collaborator call a
pipeline run can make, plus the segment files the glob of
`uploadProcessedFiles` finds per rendition. -/
structure PipelineEnv where
  getMediaOk : Bool
  updateStatusOk : MediaStatus → Bool
  downloadOk : Bool
  mkdirTempOk : Bool
  createTempOk : Bool
  copyOk : Bool
  mkdirOutOk : Bool
  probeOk : Bool
  execOk : String → Bool
  writeMasterOk : Bool
  openMasterOk : Bool
  uploadOk : String → Bool
  segs : String → List String
  addRenditionOk : String → Bool

/-- Externally visible effects of a pipeline run, in order, each tagged
with whether the collaborator call succeeded. -/
inductive Event where
  | updateStatus (status : MediaStatus) (ok : Bool)
  | upload (key : String) (ok : Bool)
  | addRendition (r : Rendition) (ok : Bool)
deriving DecidableEq, Repr

/-- `StrategyExecutor.Execute` (processor strategy file, lines 317-344):
run the HLS strategy of each profile in order; the first failing ffmpeg
invocation aborts the whole job with no partial results; on success one
`RenditionOutput` per profile, in order, with `Bitrate` left zero. -/
def strategyExecute (execOk : String → Bool) (outputDir : String) :
    List ProfileConfig → Except String (List RenditionOutput)
  | [] => .ok []
  | p :: ps =>
    if execOk p.name then
      match strategyExecute execOk outputDir ps with
      | .ok rs =>
        .ok (⟨p.name, p.width, p.height, 0, p.codec,
              outputDir ++ "/" ++ p.name ++ "/playlist.m3u8"⟩ :: rs)
      | .error e => .error e
    else .error ("strategy " ++ p.name ++ " failed")

/-- The ffmpeg processor's temp directory (config default
`ffmpeg.tempdir`, config.go line 147). -/
def ffmpegTempDir : String := "/tmp/streaming"

/-- `ffmpeg.Processor.Process` (ffmpeg processor file, lines 43-93):
create the output directory under the processor's temp dir, probe the
source, execute all profile strategies, write the master playlist, and
return the output record. -/
def processorProcess (env : PipelineEnv) (mediaID : String)
    (profiles : List ProfileConfig) : Except String ProcessOutput :=
  let outputDir := ffmpegTempDir ++ "/" ++ mediaID
  if !env.mkdirOutOk then .error "failed to create output directory"
  else if !env.probeOk then .error "failed to probe media"
  else
    match strategyExecute env.execOk outputDir profiles with
    | .error e => .error ("transcoding failed: " ++ e)
    | .ok rs =>
      if !env.writeMasterOk then .error "failed to generate master playlist"
      else .ok ⟨mediaID, rs, outputDir ++ "/master.m3u8"⟩

/-- Upload events of one rendition inside `uploadProcessedFiles`
(service.go lines 156-180): upload the profile's playlist; a failure is
logged and skips the profile's segments (`continue`); then upload each
segment the glob finds, logging failures without aborting. -/
def renditionUploadEvents (env : PipelineEnv) (mediaID : String) :
    List RenditionOutput → List Event
  | [] => []
  | r :: rs =>
    let pKey := mediaID ++ "/" ++ r.name ++ "/playlist.m3u8"
    let head :=
      if env.uploadOk pKey then
        Event.upload pKey true ::
          (env.segs r.name).map (fun s =>
            let sKey := mediaID ++ "/" ++ r.name ++ "/" ++ s
            Event.upload sKey (env.uploadOk sKey))
      else [Event.upload pKey false]
    head ++ renditionUploadEvents env mediaID rs

/-- `Service.uploadProcessedFiles` (service.go lines 139-183): open and
upload the master playlist FIRST — an error there fails the call — then
upload each rendition's playlist and segments, where every per-file
failure is only logged.  Returns the upload events in order and whether
the call returned a nil error. -/
def uploadProcessedFiles (env : PipelineEnv) (mediaID : String)
    (output : ProcessOutput) : List Event × Bool :=
  if !env.openMasterOk then ([], false)
  else
    let masterKey := mediaID ++ "/master.m3u8"
    if !env.uploadOk masterKey then ([Event.upload masterKey false], false)
    else
      (Event.upload masterKey true ::
        renditionUploadEvents env mediaID output.renditions, true)

/-- `Service.markFailed` (service.go lines 195-199): best-effort status
update to `failed`, its own failure only logged. -/
def markFailedEvent (env : PipelineEnv) : Event :=
  Event.updateStatus .failed (env.updateStatusOk .failed)

/-- `Service.ProcessMedia` (service.go lines 38-136): fetch the record,
set status `processing` (failure only logged), download and stage the
source, process it with the four hard-coded profiles, upload the
outputs, append one `Rendition` per processor rendition (each
`AddRendition` failure only logged), and finally set status `completed`
(failure only logged).  Every unrecoverable step instead appends a
best-effort `failed` status update and returns an error.  The result is
the event trace and whether the call returned a nil error. -/
def processMedia (env : PipelineEnv) (mediaID : String) : List Event × Bool :=
  if !env.getMediaOk then ([], false)
  else
    let e1 := Event.updateStatus .processing (env.updateStatusOk .processing)
    if !env.downloadOk then ([e1, markFailedEvent env], false)
    else if !env.mkdirTempOk then ([e1, markFailedEvent env], false)
    else if !env.createTempOk then ([e1, markFailedEvent env], false)
    else if !env.copyOk then ([e1, markFailedEvent env], false)
    else
      match processorProcess env mediaID transcodeProfiles with
      | .error _ => ([e1, markFailedEvent env], false)
      | .ok output =>
        let up := uploadProcessedFiles env mediaID output
        if !up.2 then (e1 :: up.1 ++ [markFailedEvent env], false)
        else
          let addEvs := output.renditions.map (fun r =>
            Event.addRendition
              ⟨r.name, r.width, r.height, r.bitrate, r.codec,
               mediaID ++ "/" ++ r.name ++ "/playlist.m3u8"⟩
              (env.addRenditionOk r.name))
          let cEv := Event.updateStatus .completed (env.updateStatusOk .completed)
          (e1 :: up.1 ++ addEvs ++ [cEv], true)

/-- Fold step observing status updates: a successful update replaces
the status a store reader sees. -/
def statusStep (acc : Option MediaStatus) (e : Event) : Option MediaStatus :=
  match e with
  | .updateStatus s true => some s
  | _ => acc

/-- The status a reader of the metadata store observes after the given
events, starting from `acc`. -/
def lastStatusFrom (acc : Option MediaStatus) (evs : List Event) :
    Option MediaStatus :=
  evs.foldl statusStep acc

/-- The status a reader of the metadata store observes after the run:
the last status update whose store call succeeded. -/
def finalStatus (evs : List Event) : Option MediaStatus :=
  lastStatusFrom none evs

/-- Fold step collecting successfully recorded renditions. -/
def recStep (e : Event) (acc : List Rendition) : List Rendition :=
  match e with
  | .addRendition r true => r :: acc
  | _ => acc

/-- The renditions whose `AddRendition` store call succeeded, in order. -/
def recordedRenditions (evs : List Event) : List Rendition :=
  evs.foldr recStep []

/-- Fold step collecting successfully uploaded keys. -/
def upStep (e : Event) (acc : List String) : List String :=
  match e with
  | .upload k true => k :: acc
  | _ => acc

/-- The S3 keys whose upload succeeded, in upload order. -/
def successfulUploads (evs : List Event) : List String :=
  evs.foldr upStep []

/-- An environment in which every collaborator call succeeds and each
rendition directory holds one segment file. -/
def envAllOk : PipelineEnv where
  getMediaOk := true
  updateStatusOk := fun _ => true
  downloadOk := true
  mkdirTempOk := true
  createTempOk := true
  copyOk := true
  mkdirOutOk := true
  probeOk := true
  execOk := fun _ => true
  writeMasterOk := true
  openMasterOk := true
  uploadOk := fun _ => true
  segs := fun _ => ["segment_0000.ts"]
  addRenditionOk := fun _ => true

example : (processMedia envAllOk "media1").2 = true := by decide

example : finalStatus (processMedia envAllOk "media1").1
    = some MediaStatus.completed := by decide

example : (recordedRenditions (processMedia envAllOk "media1").1).length = 4 := by
  decide

/-! Helper lemmas about the Redis primitives. -/

theorem mem_zadd {l : List (Job × Int)} {m : Job} {s : Int} {p : Job × Int}
    (hp : p ∈ zadd l m s) : p ∈ l ∨ p.1 = m := by
  unfold zadd at hp
  split at hp
  · rcases List.mem_map.mp hp with ⟨q, hq, hq2⟩
    by_cases hqm : (q.1 == m) = true
    · right
      rw [if_pos hqm] at hq2
      rw [← hq2]
    · left
      rw [if_neg hqm] at hq2
      rw [← hq2]
      exact hq
  · rcases List.mem_append.mp hp with h | h
    · exact Or.inl h
    · right
      rw [List.mem_singleton.mp h]

theorem zadd_not_mem (l : List (Job × Int)) (m : Job) (s : Int)
    (h : ∀ p ∈ l, p.1 ≠ m) : zadd l m s = l ++ [(m, s)] := by
  unfold zadd
  rw [if_neg]
  simp only [List.any_eq_true, beq_iff_eq, not_exists, not_and]
  intro p hp
  exact h p hp

theorem findMin_mem (xs : List (Job × Int)) : ∀ x, findMin x xs ∈ x :: xs := by
  induction xs with
  | nil =>
    intro x
    simp [findMin]
  | cons y ys ih =>
    intro x
    simp only [findMin]
    rcases List.mem_cons.mp (ih (if entryLt y x then y else x)) with h1 | h1
    · rw [h1]
      split
      · exact List.mem_cons_of_mem _ (List.mem_cons_self _ _)
      · exact List.mem_cons_self _ _
    · exact List.mem_cons_of_mem _ (List.mem_cons_of_mem _ h1)

theorem findMin_score_le (xs : List (Job × Int)) :
    ∀ x q, q ∈ x :: xs → (findMin x xs).2 ≤ q.2 := by
  induction xs with
  | nil =>
    intro x q hq
    rcases List.mem_cons.mp hq with h | h
    · rw [h]
      simp [findMin]
    · simp at h
  | cons y ys ih =>
    intro x q hq
    simp only [findMin]
    have hbx : (if entryLt y x then y else x).2 ≤ x.2 := by
      split
      · rename_i h
        rcases h with h | ⟨h, -⟩ <;> omega
      · omega
    have hby : (if entryLt y x then y else x).2 ≤ y.2 := by
      split
      · omega
      · rename_i h
        have : ¬ (y.2 < x.2) := fun hc => h (Or.inl hc)
        omega
    have hmin := ih (if entryLt y x then y else x)
    have hself : (findMin (if entryLt y x then y else x) ys).2
        ≤ (if entryLt y x then y else x).2 :=
      hmin _ (List.mem_cons_self _ _)
    rcases List.mem_cons.mp hq with h | h
    · rw [h] at *
      omega
    · rcases List.mem_cons.mp h with h2 | h2
      · rw [h2] at *
        omega
      · exact hmin _ (List.mem_cons_of_mem _ h2)

/-! ### Claim C7 — what Enqueue does to the job's fields -/

/-- A job whose `createdAt` was already set before re-enqueueing. -/
def jobC7 : Job :=
  ⟨"job-c7", "transcode", "media-c7", 2, [("source", "raw/u.mp4")], 100, 0⟩

/-- C7 counterexample: the claim says Enqueue leaves an already-set
`createdAt` unchanged; at this concrete input the field is 100 before
the call and 200 (the enqueue instant) after, both on the mutated job
object and on the member stored in the pending set. -/
theorem enqueue_createdAt_not_preserved :
    jobC7.createdAt = 100 ∧
    (enqueue 200 QueueState.empty jobC7).2.createdAt ≠ 100 ∧
    ∀ p ∈ (enqueue 200 QueueState.empty jobC7).1.pending,
      p.1.createdAt ≠ 100 := by decide

/-- C7 amended: `Enqueue` always assigns `createdAt := now` (redis.go
line 84 runs unconditionally), leaves every other job field unchanged,
inserts exactly that member into the pending set with score
`now - priority*1000`, and leaves the processing and dead-letter sets
untouched. -/
theorem enqueue_frame (now : Nat) (st : QueueState) (job : Job) :
    (enqueue now st job).2.createdAt = now ∧
    (enqueue now st job).2.id = job.id ∧
    (enqueue now st job).2.jobType = job.jobType ∧
    (enqueue now st job).2.mediaID = job.mediaID ∧
    (enqueue now st job).2.priority = job.priority ∧
    (enqueue now st job).2.payload = job.payload ∧
    (enqueue now st job).2.attempts = job.attempts ∧
    (enqueue now st job).1.pending
      = zadd st.pending (enqueue now st job).2 ((now : Int) - job.priority * 1000) ∧
    (enqueue now st job).1.processing = st.processing ∧
    (enqueue now st job).1.dead = st.dead :=
  ⟨rfl, rfl, rfl, rfl, rfl, rfl, rfl, rfl, rfl, rfl⟩

/-! ### Claim C8 — Ack is an idempotent no-op on absent jobs -/

/-- C8: `Ack` never reports an error in this model (`SREM` of an absent
member succeeds with count 0); acknowledging a job not in the
processing set leaves the state untouched; and a second `Ack` of the
same job is a no-op returning the same state and no error. -/
theorem ack_idempotent (st : QueueState) (job : Job) :
    (ackJob st job).2 = none ∧
    (job ∉ st.processing → (ackJob st job).1 = st) ∧
    ackJob (ackJob st job).1 job = ackJob st job := by
  refine ⟨rfl, ?_, ?_⟩
  · intro h
    have hf : srem st.processing job = st.processing := by
      apply List.filter_eq_self.mpr
      intro x hx
      simp only [bne_iff_ne, ne_eq]
      exact fun hxj => h (hxj ▸ hx)
    show { st with processing := srem st.processing job } = st
    rw [hf]
  · have hs : srem (srem st.processing job) job = srem st.processing job := by
      simp [srem, List.filter_filter]
    simp only [ackJob, hs]

def jobC8 : Job := ⟨"job-c8", "transcode", "media-c8", 0, [], 0, 0⟩

/-- C8 witness: acknowledging a job absent from an empty processing set
leaves the state unchanged. -/
theorem ack_idempotent_witness :
    (ackJob QueueState.empty jobC8).1 = QueueState.empty :=
  (ack_idempotent QueueState.empty jobC8).2.1 (by decide)

/-! ### Claim C10 — Dequeue's result shape -/

/-- C10: every `Dequeue` return carries a job exactly when it carries no
error — a nil job together with a nil error is impossible, and the
elapsed-timeout case is the distinguished `ErrNoJobAvailable` with a
nil job.  The nil-job check after a nil-error return in `processLoop`
(service.go line 254) is therefore unreachable. -/
theorem dequeue_job_iff_no_error (now : Nat) (saddOk : Bool) (st : QueueState) :
    ((dequeue now saddOk st).2.1.isSome ↔ (dequeue now saddOk st).2.2 = none) ∧
    ¬((dequeue now saddOk st).2.1 = none ∧ (dequeue now saddOk st).2.2 = none) ∧
    (st.pending = [] →
      (dequeue now saddOk st).2 = (none, some QueueErr.noJobAvailable)) := by
  rcases hP : bzPopMin st.pending with _ | ⟨e, rest⟩
  · simp [dequeue, hP]
  · cases saddOk
    · simp only [dequeue, hP]
      refine ⟨by simp, by simp, ?_⟩
      intro h
      rw [h] at hP
      simp [bzPopMin] at hP
    · simp only [dequeue, hP]
      refine ⟨by simp, by simp, ?_⟩
      intro h
      rw [h] at hP
      simp [bzPopMin] at hP

/-- C10 witness: on an empty queue the timeout case is
`(nil, ErrNoJobAvailable)`. -/
theorem dequeue_job_iff_no_error_witness :
    (dequeue 0 true QueueState.empty).2 = (none, some QueueErr.noJobAvailable) :=
  (dequeue_job_iff_no_error 0 true QueueState.empty).2.2 rfl

/-! ### Claim C9 — the poll timeout passed to Dequeue -/

/-- Go's `time.Second` expressed in the base unit of `time.Duration`,
nanoseconds. -/
def goTimeSecond : Int := 1000000000

/-- The untyped constant `5` passed as the `time.Duration` poll timeout
at the `Dequeue` call of `processLoop` (service.go line 248), in
nanoseconds. -/
def processLoopDequeueTimeout : Int := 5

/-- C9: the consumer loop's poll timeout is the `Duration` value 5,
i.e. five nanoseconds — not the five seconds announced by the call
site's own comment and by the specification (`5 * time.Second`). -/
theorem processLoop_timeout_is_five_nanoseconds :
    processLoopDequeueTimeout = 5 ∧
    processLoopDequeueTimeout ≠ 5 * goTimeSecond ∧
    processLoopDequeueTimeout < goTimeSecond := by decide

/-! ### Claim C2 — where an exhausted job's attempt count ends up -/

/-- The job of Scenario B. -/
def jobB : Job := ⟨"job-b", "transcode", "media-b", 1, [], 0, 0⟩

/-- One worker round against the queue in which the pipeline fails:
dequeue a job and `Nack` it, as `processLoop` does on a pipeline error.
Returns the new state and the job object the worker last held. -/
def workerCycle (now : Nat) (st : QueueState) : QueueState × Option Job :=
  match dequeue now true st with
  | (st1, some j, _) =>
    let r := nack now st1 j
    (r.1, some r.2.1)
  | (st1, none, _) => (st1, none)

/-- Scenario B: enqueue `jobB`, then dequeue-and-Nack it three times. -/
def scenarioB : QueueState × Option Job :=
  let s1 := (enqueue 0 QueueState.empty jobB).1
  let c1 := workerCycle 0 s1
  let c2 := workerCycle 0 c1.1
  workerCycle 0 c2.1

/-- C2 counterexample: after the third `Nack` the pending set is empty
and the dead-letter set is non-empty, but no member of the dead-letter
set carries `attempts = 3` — `Nack` serializes the job before the final
increment (redis.go line 154) and stores that stale serialization
(line 171). -/
theorem deadletter_lacks_final_attempts :
    scenarioB.1.pending = [] ∧
    scenarioB.1.dead ≠ [] ∧
    ∀ j ∈ scenarioB.1.dead, j.attempts ≠ 3 := by decide

/-- C2 amended: the dead-letter member is the job as serialized before
the final increment, with `attempts = 2`; the in-memory job object the
worker holds after the third `Nack` has `attempts = 3`; the job is in
neither the pending set nor the processing set. -/
theorem deadletter_carries_pre_increment_count :
    scenarioB.1.dead = [{ jobB with attempts := 2 }] ∧
    scenarioB.2 = some { jobB with attempts := 3 } ∧
    scenarioB.1.pending = [] ∧
    scenarioB.1.processing = [] := by decide

/-! ### Claim C6 — Nack's retry budget -/

/-- Every pending member still has retry budget: fewer than the 3
maximum attempts. -/
def pendingBounded (st : QueueState) : Prop :=
  ∀ p ∈ st.pending, p.1.attempts < 3

/-- C6: with retry budget left (`attempts ≤ 1`, so the incremented
count stays below 3), `Nack` re-enqueues the job with `attempts`
incremented by exactly one and leaves the dead-letter set untouched;
with the budget exhausted it touches the pending set not at all and
adds the job to the dead-letter set; and no internal re-enqueue path of
the queue — `Nack`'s retry, `Dequeue`'s compensation after a failed
processing-set insert, `Ack` — ever puts a member with `attempts ≥ 3`
into a pending set whose members all respect the bound. -/
theorem nack_retry_budget (now : Nat) (st : QueueState) (job : Job) (saddOk : Bool) :
    (job.attempts ≤ 1 →
      (nack now st job).1.pending
        = zadd st.pending { job with attempts := job.attempts + 1, createdAt := now }
            ((now : Int) - job.priority * 1000) ∧
      (nack now st job).1.dead = st.dead) ∧
    (2 ≤ job.attempts →
      (nack now st job).1.pending = st.pending ∧
      (nack now st job).1.dead = sadd st.dead job) ∧
    (pendingBounded st →
      pendingBounded (nack now st job).1 ∧
      pendingBounded (ackJob st job).1 ∧
      pendingBounded (dequeue now saddOk st).1) := by
  refine ⟨?_, ?_, ?_⟩
  · intro h
    have hc : ({ job with attempts := job.attempts + 1 } : Job).attempts < 3 := by
      show job.attempts + 1 < 3
      omega
    unfold nack
    rw [if_pos hc]
    exact ⟨rfl, rfl⟩
  · intro h
    have hc : ¬ ({ job with attempts := job.attempts + 1 } : Job).attempts < 3 := by
      show ¬ job.attempts + 1 < 3
      omega
    unfold nack
    rw [if_neg hc]
    exact ⟨rfl, rfl⟩
  · intro hB
    refine ⟨?_, hB, ?_⟩
    · simp only [nack]
      split
      · rename_i hc
        intro p hp
        simp only [enqueue] at hp
        rcases mem_zadd hp with h | h
        · exact hB p h
        · rw [h]
          exact hc
      · exact hB
    · rcases hP : bzPopMin st.pending with _ | ⟨e, rest⟩
      · simp only [dequeue, hP]
        exact hB
      · have heq : e ∈ st.pending ∧ rest = st.pending.erase e := by
          rcases hl : st.pending with _ | ⟨x, xs⟩
          · rw [hl] at hP
            simp [bzPopMin] at hP
          · rw [hl] at hP
            simp only [bzPopMin, Option.some.injEq, Prod.mk.injEq] at hP
            refine ⟨?_, ?_⟩
            · rw [← hP.1]
              exact findMin_mem xs x
            · rw [← hP.2, ← hP.1]
        obtain ⟨he, hrest⟩ := heq
        simp only [dequeue, hP]
        split
        · intro p hp
          simp only at hp
          rw [hrest] at hp
          exact hB p (List.erase_subset _ _ hp)
        · intro p hp
          simp only [enqueue] at hp
          rcases mem_zadd hp with h | h
          · rw [hrest] at h
            exact hB p (List.erase_subset _ _ h)
          · rw [h]
            exact hB e he

def jobC6 : Job := ⟨"job-c6", "transcode", "media-c6", 0, [], 0, 0⟩

/-- C6 witness: a first `Nack` of a fresh job re-enqueues it with
`attempts = 1` and leaves the dead-letter set empty. -/
theorem nack_retry_budget_witness :
    (nack 5 QueueState.empty jobC6).1.pending
      = zadd QueueState.empty.pending
          { jobC6 with attempts := jobC6.attempts + 1, createdAt := 5 }
          ((5 : Int) - jobC6.priority * 1000) ∧
    (nack 5 QueueState.empty jobC6).1.dead = QueueState.empty.dead :=
  (nack_retry_budget 5 QueueState.empty jobC6 true).1 (by decide)

/-! ### Claim C5 — priority ordering of Enqueue/Dequeue -/

/-- Dequeue on a non-empty pending set, unfolded: pop the `findMin`
entry, track it as processing, return it. -/
theorem dequeue_cons (now : Nat) (st : QueueState) (x : Job × Int)
    (xs : List (Job × Int)) (h : st.pending = x :: xs) :
    dequeue now true st
      = ({ st with
            pending := (x :: xs).erase (findMin x xs),
            processing := sadd st.processing (findMin x xs).1 },
         some (findMin x xs).1, none) := by
  simp [dequeue, bzPopMin, h]

/-- The jobs of Scenario A. -/
def jA1 : Job := ⟨"J1", "transcode", "media-a", 5, [], 0, 0⟩

def jA2 : Job := ⟨"J2", "transcode", "media-a", 1, [], 0, 0⟩

def jA3 : Job := ⟨"J3", "transcode", "media-a", 5, [], 0, 0⟩

/-- Scenario A: enqueue J1 (priority 5), J2 (priority 1), J3
(priority 5) in that order at clock values `t1 ≤ t2 ≤ t3`, then run
three dequeues; the result is the triple of returned jobs. -/
def scenarioA (t1 t2 t3 : Nat) : Option Job × Option Job × Option Job :=
  let s1 := (enqueue t1 QueueState.empty jA1).1
  let s2 := (enqueue t2 s1 jA2).1
  let s3 := (enqueue t3 s2 jA3).1
  let d1 := dequeue t3 true s3
  let d2 := dequeue t3 true d1.1
  let d3 := dequeue t3 true d2.1
  (d1.2.1, d2.2.1, d3.2.1)

example : scenarioA 0 0 0
    = (some jA1, some jA3, some jA2) := by decide

example : scenarioA 10 11 12
    = (some { jA1 with createdAt := 10 }, some { jA3 with createdAt := 12 },
       some { jA2 with createdAt := 11 }) := by decide

theorem job_ne_of_id_ne {a b : Job} (h : a.id ≠ b.id) : a ≠ b :=
  fun hab => h (congrArg Job.id hab)

/-- Scenario A resolves to J1, then J3, then J2, for any enqueue
instants that are in order and within the 999-second window in which a
one-unit priority difference dominates clock drift. -/
theorem scenarioA_result (t1 t2 t3 : Nat)
    (h12 : t1 ≤ t2) (h23 : t2 ≤ t3) (hW : t3 ≤ t1 + 999) :
    scenarioA t1 t2 t3
      = (some { jA1 with createdAt := t1 }, some { jA3 with createdAt := t3 },
         some { jA2 with createdAt := t2 }) := by
  have hq12 : ({ jA1 with createdAt := t1 } : Job) ≠ { jA2 with createdAt := t2 } := by
    intro h
    have h2 : ("J1" : String) = "J2" := congrArg Job.id h
    exact absurd h2 (by decide)
  have hq13 : ({ jA1 with createdAt := t1 } : Job) ≠ { jA3 with createdAt := t3 } := by
    intro h
    have h2 : ("J1" : String) = "J3" := congrArg Job.id h
    exact absurd h2 (by decide)
  have hq23 : ({ jA2 with createdAt := t2 } : Job) ≠ { jA3 with createdAt := t3 } := by
    intro h
    have h2 : ("J2" : String) = "J3" := congrArg Job.id h
    exact absurd h2 (by decide)
  have e1 : (enqueue t1 QueueState.empty jA1).1
      = ⟨[({ jA1 with createdAt := t1 }, (t1 : Int) - 5000)], [], []⟩ := by
    simp [enqueue, QueueState.empty, zadd, jA1]
  have e2 : (enqueue t2
        (⟨[({ jA1 with createdAt := t1 }, (t1 : Int) - 5000)], [], []⟩ : QueueState)
        jA2).1
      = ⟨[({ jA1 with createdAt := t1 }, (t1 : Int) - 5000),
          ({ jA2 with createdAt := t2 }, (t2 : Int) - 1000)], [], []⟩ := by
    simp [enqueue, zadd, jA1, jA2, hq12]
  have e3 : (enqueue t3
        (⟨[({ jA1 with createdAt := t1 }, (t1 : Int) - 5000),
           ({ jA2 with createdAt := t2 }, (t2 : Int) - 1000)], [], []⟩ : QueueState)
        jA3).1
      = ⟨[({ jA1 with createdAt := t1 }, (t1 : Int) - 5000),
          ({ jA2 with createdAt := t2 }, (t2 : Int) - 1000),
          ({ jA3 with createdAt := t3 }, (t3 : Int) - 5000)], [], []⟩ := by
    simp [enqueue, zadd, jA1, jA2, jA3, hq13, hq23]
  have hfm1 : findMin ({ jA1 with createdAt := t1 }, (t1 : Int) - 5000)
      [({ jA2 with createdAt := t2 }, (t2 : Int) - 1000),
       ({ jA3 with createdAt := t3 }, (t3 : Int) - 5000)]
      = ({ jA1 with createdAt := t1 }, (t1 : Int) - 5000) := by
    have hA : ¬ entryLt ({ jA2 with createdAt := t2 }, (t2 : Int) - 1000)
        ({ jA1 with createdAt := t1 }, (t1 : Int) - 5000) := by
      intro h
      simp only [entryLt] at h
      rcases h with h | ⟨h, -⟩ <;> omega
    have hB : ¬ entryLt ({ jA3 with createdAt := t3 }, (t3 : Int) - 5000)
        ({ jA1 with createdAt := t1 }, (t1 : Int) - 5000) := by
      intro h
      simp only [entryLt] at h
      rcases h with h | ⟨h, hj⟩
      · omega
      · have hf : jobLt { jA3 with createdAt := t3 } { jA1 with createdAt := t1 }
            = false := rfl
        rw [hf] at hj
        cases hj
    simp only [findMin, if_neg hA, if_neg hB]
  have hfm2 : findMin ({ jA2 with createdAt := t2 }, (t2 : Int) - 1000)
      [({ jA3 with createdAt := t3 }, (t3 : Int) - 5000)]
      = ({ jA3 with createdAt := t3 }, (t3 : Int) - 5000) := by
    have hC : entryLt ({ jA3 with createdAt := t3 }, (t3 : Int) - 5000)
        ({ jA2 with createdAt := t2 }, (t2 : Int) - 1000) :=
      Or.inl (by omega)
    simp only [findMin, if_pos hC]
  have her1 : [({ jA1 with createdAt := t1 }, (t1 : Int) - 5000),
      ({ jA2 with createdAt := t2 }, (t2 : Int) - 1000),
      ({ jA3 with createdAt := t3 }, (t3 : Int) - 5000)].erase
        ({ jA1 with createdAt := t1 }, (t1 : Int) - 5000)
      = [({ jA2 with createdAt := t2 }, (t2 : Int) - 1000),
         ({ jA3 with createdAt := t3 }, (t3 : Int) - 5000)] :=
    List.erase_cons_head _ _
  have her2 : [({ jA2 with createdAt := t2 }, (t2 : Int) - 1000),
      ({ jA3 with createdAt := t3 }, (t3 : Int) - 5000)].erase
        ({ jA3 with createdAt := t3 }, (t3 : Int) - 5000)
      = [({ jA2 with createdAt := t2 }, (t2 : Int) - 1000)] := by
    have hpne : (({ jA2 with createdAt := t2 }, (t2 : Int) - 1000) : Job × Int)
        ≠ ({ jA3 with createdAt := t3 }, (t3 : Int) - 5000) :=
      fun h => hq23 (congrArg Prod.fst h)
    rw [List.erase_cons_tail]
    · rw [List.erase_cons_head]
    · simp [hpne]
  have hd1 : dequeue t3 true
      (⟨[({ jA1 with createdAt := t1 }, (t1 : Int) - 5000),
         ({ jA2 with createdAt := t2 }, (t2 : Int) - 1000),
         ({ jA3 with createdAt := t3 }, (t3 : Int) - 5000)], [], []⟩ : QueueState)
      = (⟨[({ jA2 with createdAt := t2 }, (t2 : Int) - 1000),
           ({ jA3 with createdAt := t3 }, (t3 : Int) - 5000)],
          [{ jA1 with createdAt := t1 }], []⟩,
         some { jA1 with createdAt := t1 }, none) := by
    rw [dequeue_cons t3 _ _ _ rfl, hfm1, her1]
    rfl
  have hd2 : dequeue t3 true
      (⟨[({ jA2 with createdAt := t2 }, (t2 : Int) - 1000),
         ({ jA3 with createdAt := t3 }, (t3 : Int) - 5000)],
        [{ jA1 with createdAt := t1 }], []⟩ : QueueState)
      = (⟨[({ jA2 with createdAt := t2 }, (t2 : Int) - 1000)],
          [{ jA1 with createdAt := t1 }, { jA3 with createdAt := t3 }], []⟩,
         some { jA3 with createdAt := t3 }, none) := by
    rw [dequeue_cons t3 _ _ _ rfl, hfm2, her2]
    rfl
  have hd3 : dequeue t3 true
      (⟨[({ jA2 with createdAt := t2 }, (t2 : Int) - 1000)],
        [{ jA1 with createdAt := t1 }, { jA3 with createdAt := t3 }], []⟩ : QueueState)
      = (⟨[],
          [{ jA1 with createdAt := t1 }, { jA3 with createdAt := t3 },
           { jA2 with createdAt := t2 }], []⟩,
         some { jA2 with createdAt := t2 }, none) := by
    have hfm3 : findMin ({ jA2 with createdAt := t2 }, (t2 : Int) - 1000) []
        = ({ jA2 with createdAt := t2 }, (t2 : Int) - 1000) := rfl
    have her3 : [({ jA2 with createdAt := t2 }, (t2 : Int) - 1000)].erase
          (({ jA2 with createdAt := t2 }, (t2 : Int) - 1000) : Job × Int)
        = [] := List.erase_cons_head _ _
    rw [dequeue_cons t3 _ _ _ rfl, hfm3, her3]
    rfl
  simp only [scenarioA, e1, e2, e3, hd1, hd2, hd3]

/-- C5: `Enqueue` inserts the job with score
`createdAt − 1000·priority` (the inserted member's `createdAt` being
the enqueue instant); `Dequeue` removes and returns a pending entry of
minimal score; and Scenario A — J1 (priority 5), J2 (priority 1), J3
(priority 5) enqueued in that order — dequeues as J1, then J3, then J2. -/
theorem priority_ordering (t1 t2 t3 : Nat)
    (h12 : t1 ≤ t2) (h23 : t2 ≤ t3) (hW : t3 ≤ t1 + 999) :
    (∀ (now : Nat) (st : QueueState) (job : Job),
      (enqueue now st job).1.pending
        = zadd st.pending (enqueue now st job).2
            (((enqueue now st job).2.createdAt : Int)
              - 1000 * (enqueue now st job).2.priority)) ∧
    (∀ (now : Nat) (st : QueueState), st.pending ≠ [] → ∃ j s,
      (dequeue now true st).2.1 = some j ∧ (j, s) ∈ st.pending ∧
      (∀ q ∈ st.pending, s ≤ q.2) ∧
      (dequeue now true st).1.pending = st.pending.erase (j, s)) ∧
    scenarioA t1 t2 t3
      = (some { jA1 with createdAt := t1 }, some { jA3 with createdAt := t3 },
         some { jA2 with createdAt := t2 }) := by
  refine ⟨?_, ?_, scenarioA_result t1 t2 t3 h12 h23 hW⟩
  · intro now st job
    simp only [enqueue]
    congr 1
    ring
  · intro now st hne
    rcases hl : st.pending with _ | ⟨x, xs⟩
    · exact absurd hl hne
    · refine ⟨(findMin x xs).1, (findMin x xs).2, ?_, ?_, ?_, ?_⟩
      · rw [dequeue_cons now st x xs hl]
      · exact findMin_mem xs x
      · intro q hq
        exact findMin_score_le xs x q hq
      · rw [dequeue_cons now st x xs hl]

/-- C5 witness: the scenario at three simultaneous enqueues. -/
theorem priority_ordering_witness :
    scenarioA 0 0 0
      = (some { jA1 with createdAt := 0 }, some { jA3 with createdAt := 0 },
         some { jA2 with createdAt := 0 }) :=
  (priority_ordering 0 0 0 (by decide) (by decide) (by decide)).2.2

/-! Helper lemmas about the event traces. -/

/-- Recognizer for upload events. -/
def Event.isUpload : Event → Bool
  | .upload _ _ => true
  | _ => false

theorem renditionUploadEvents_upload (env : PipelineEnv) (m : String) :
    ∀ rs, ∀ e ∈ renditionUploadEvents env m rs, e.isUpload = true := by
  intro rs
  induction rs with
  | nil => simp [renditionUploadEvents]
  | cons r rs ih =>
    intro e he
    simp only [renditionUploadEvents] at he
    rcases List.mem_append.mp he with h | h
    · split at h
      · rcases List.mem_cons.mp h with h1 | h1
        · rw [h1]
          rfl
        · rcases List.mem_map.mp h1 with ⟨sg, hsg, hseq⟩
          rw [← hseq]
          rfl
      · rw [List.mem_singleton.mp h]
        rfl
    · exact ih e h

theorem uploadProcessedFiles_upload (env : PipelineEnv) (m : String)
    (out : ProcessOutput) :
    ∀ e ∈ (uploadProcessedFiles env m out).1, e.isUpload = true := by
  intro e he
  simp only [uploadProcessedFiles] at he
  split at he
  · simp at he
  · split at he
    · rw [List.mem_singleton.mp he]
      rfl
    · rcases List.mem_cons.mp he with h | h
      · rw [h]
        rfl
      · exact renditionUploadEvents_upload env m out.renditions e h

theorem lastStatusFrom_cons (acc : Option MediaStatus) (e : Event)
    (evs : List Event) :
    lastStatusFrom acc (e :: evs) = lastStatusFrom (statusStep acc e) evs := rfl

theorem lastStatusFrom_append (acc : Option MediaStatus) (xs ys : List Event) :
    lastStatusFrom acc (xs ++ ys) = lastStatusFrom (lastStatusFrom acc xs) ys := by
  simp [lastStatusFrom, List.foldl_append]

theorem lastStatusFrom_uploads (evs : List Event)
    (h : ∀ e ∈ evs, e.isUpload = true) :
    ∀ acc, lastStatusFrom acc evs = acc := by
  induction evs with
  | nil =>
    intro acc
    rfl
  | cons e es ih =>
    intro acc
    have he := h e (List.mem_cons_self _ _)
    rw [lastStatusFrom_cons]
    have hstep : statusStep acc e = acc := by
      cases e with
      | upload k b => rfl
      | addRendition r b => rfl
      | updateStatus s b => simp [Event.isUpload] at he
    rw [hstep]
    exact ih (fun x hx => h x (List.mem_cons_of_mem _ hx)) acc

theorem recStep_foldr_acc (xs : List Event) :
    ∀ acc, xs.foldr recStep acc = xs.foldr recStep [] ++ acc := by
  induction xs with
  | nil =>
    intro acc
    simp
  | cons e es ih =>
    intro acc
    cases e with
    | addRendition r b =>
      cases b
      · simp only [List.foldr_cons, recStep]
        exact ih acc
      · simp only [List.foldr_cons, recStep]
        rw [ih acc]
        rfl
    | updateStatus s b =>
      simp only [List.foldr_cons, recStep]
      exact ih acc
    | upload k b =>
      simp only [List.foldr_cons, recStep]
      exact ih acc

theorem recordedRenditions_append (xs ys : List Event) :
    recordedRenditions (xs ++ ys)
      = recordedRenditions xs ++ recordedRenditions ys := by
  simp only [recordedRenditions, List.foldr_append]
  exact recStep_foldr_acc xs _

theorem recordedRenditions_uploads (evs : List Event)
    (h : ∀ e ∈ evs, e.isUpload = true) :
    recordedRenditions evs = [] := by
  induction evs with
  | nil => rfl
  | cons e es ih =>
    have he := h e (List.mem_cons_self _ _)
    have hrest := ih (fun x hx => h x (List.mem_cons_of_mem _ hx))
    cases e with
    | upload k b =>
      simp only [recordedRenditions, List.foldr_cons, recStep] at *
      exact hrest
    | addRendition r b => simp [Event.isUpload] at he
    | updateStatus s b => simp [Event.isUpload] at he

theorem recordedRenditions_addAll (g : RenditionOutput → Rendition) :
    ∀ rs : List RenditionOutput,
      recordedRenditions (rs.map (fun r => Event.addRendition (g r) true))
        = rs.map g := by
  intro rs
  induction rs with
  | nil => rfl
  | cons r rs ih =>
    simp only [List.map_cons, recordedRenditions, List.foldr_cons, recStep] at *
    rw [ih]

theorem strategyExecute_length (execOk : String → Bool) (dir : String) :
    ∀ (ps : List ProfileConfig) (rs : List RenditionOutput),
      strategyExecute execOk dir ps = .ok rs → rs.length = ps.length := by
  intro ps
  induction ps with
  | nil =>
    intro rs h
    simp only [strategyExecute, Except.ok.injEq] at h
    rw [← h]
    rfl
  | cons p ps ih =>
    intro rs h
    simp only [strategyExecute] at h
    split at h
    · cases hrec : strategyExecute execOk dir ps with
      | error e =>
        rw [hrec] at h
        simp at h
      | ok rs' =>
        rw [hrec] at h
        simp only [Except.ok.injEq] at h
        rw [← h]
        simp [ih rs' hrec]
    · simp at h

theorem processorProcess_ok_length (env : PipelineEnv) (m : String)
    (ps : List ProfileConfig) (out : ProcessOutput)
    (h : processorProcess env m ps = .ok out) :
    out.renditions.length = ps.length := by
  simp only [processorProcess] at h
  split at h
  · simp at h
  · split at h
    · simp at h
    · cases hs : strategyExecute env.execOk (ffmpegTempDir ++ "/" ++ m) ps with
      | error e =>
        rw [hs] at h
        simp at h
      | ok rs =>
        rw [hs] at h
        split at h
        · simp at h
        · rename_i x2 rs2 heq
          have hrs : rs = rs2 := Except.ok.inj heq
          subst hrs
          split at h
          · simp at h
          · have h2 : (⟨m, rs, ffmpegTempDir ++ "/" ++ m ++ "/master.m3u8"⟩ :
                ProcessOutput) = out := Except.ok.inj h
            rw [← h2]
            exact strategyExecute_length _ _ ps rs hs

/-! ### Claim C3 — where the master manifest sits in the upload order -/

/-- C3 counterexample: in a fully successful run the successful-upload
order starts with the master manifest, and every per-profile playlist
and segment is uploaded after it — the opposite of the claimed
"master last" order (service.go uploads the master at lines 144-153,
before the rendition loop at lines 156-180). -/
theorem master_uploaded_before_renditions :
    successfulUploads (processMedia envAllOk "media1").1
      = ["media1/master.m3u8",
         "media1/1080p/playlist.m3u8", "media1/1080p/segment_0000.ts",
         "media1/720p/playlist.m3u8", "media1/720p/segment_0000.ts",
         "media1/480p/playlist.m3u8", "media1/480p/segment_0000.ts",
         "media1/360p/playlist.m3u8", "media1/360p/segment_0000.ts"] ∧
    (successfulUploads (processMedia envAllOk "media1").1).head?
      = some "media1/master.m3u8" := by decide

/-- C3 amended: whenever `uploadProcessedFiles` records any upload
event at all, the first one is the master manifest — the master is
published first, before every per-profile playlist and segment, not
last. -/
theorem master_uploaded_first (env : PipelineEnv) (m : String)
    (out : ProcessOutput) (h : (uploadProcessedFiles env m out).1 ≠ []) :
    ((uploadProcessedFiles env m out).1).head?
      = some (Event.upload (m ++ "/master.m3u8")
          (env.uploadOk (m ++ "/master.m3u8"))) := by
  cases hop : env.openMasterOk with
  | false =>
    exact absurd (by simp [uploadProcessedFiles, hop]) h
  | true =>
    cases hup : env.uploadOk (m ++ "/master.m3u8") with
    | false => simp [uploadProcessedFiles, hop, hup]
    | true => simp [uploadProcessedFiles, hop, hup]

/-- A concrete processor output for the C3 witness. -/
def outC3 : ProcessOutput :=
  ⟨"media1",
   [⟨"1080p", 1920, 1080, 0, "h264", "/tmp/streaming/media1/1080p/playlist.m3u8"⟩],
   "/tmp/streaming/media1/master.m3u8"⟩

/-- C3 witness: on a concrete output the first upload event is the
master manifest. -/
theorem master_uploaded_first_witness :
    ((uploadProcessedFiles envAllOk "media1" outC3).1).head?
      = some (Event.upload "media1/master.m3u8" true) := by
  have h := master_uploaded_first envAllOk "media1" outC3 (by decide)
  simpa using h

/-! ### Claim C4 — a publish failure on the 2nd of 4 profiles -/

/-- The environment of Scenario D: every collaborator call succeeds
except the upload of the 2nd profile's playlist. -/
def envC4 : PipelineEnv :=
  { envAllOk with uploadOk := fun k => k != "media1/720p/playlist.m3u8" }

/-- C4 counterexample: with the 2nd profile's playlist upload failing,
the run still returns success, the WorkItem ends `completed` (not
`failed`), all 4 renditions are recorded (not exactly 1), and the
master manifest is published — `uploadProcessedFiles` logs the
per-profile failure and continues (service.go lines 161-164), and the
master was already uploaded first. -/
theorem publish_failure_not_fatal :
    (processMedia envC4 "media1").2 = true ∧
    finalStatus (processMedia envC4 "media1").1 = some MediaStatus.completed ∧
    finalStatus (processMedia envC4 "media1").1 ≠ some MediaStatus.failed ∧
    (recordedRenditions (processMedia envC4 "media1").1).length = 4 ∧
    "media1/master.m3u8" ∈ successfulUploads (processMedia envC4 "media1").1 := by
  decide

/-- C4 amended: the failed profile's playlist and segments are the only
outputs not published — the other three profiles' files are uploaded,
all four renditions are recorded, and the WorkItem ends `completed`
with the master manifest published. -/
theorem publish_failure_skips_profile :
    successfulUploads (processMedia envC4 "media1").1
      = ["media1/master.m3u8",
         "media1/1080p/playlist.m3u8", "media1/1080p/segment_0000.ts",
         "media1/480p/playlist.m3u8", "media1/480p/segment_0000.ts",
         "media1/360p/playlist.m3u8", "media1/360p/segment_0000.ts"] ∧
    (recordedRenditions (processMedia envC4 "media1").1).map Rendition.name
      = ["1080p", "720p", "480p", "360p"] := by decide

/-! ### Claim C1 — completed status versus recorded renditions -/

theorem finalStatus_two_updates (b1 b2 : Bool) :
    finalStatus [Event.updateStatus .processing b1, Event.updateStatus .failed b2]
      ≠ some MediaStatus.completed := by
  cases b1 <;> cases b2 <;> decide

theorem finalStatus_upload_fail_branch (b1 b2 : Bool) (up : List Event)
    (hup : ∀ e ∈ up, e.isUpload = true) :
    finalStatus (Event.updateStatus .processing b1 :: up
        ++ [Event.updateStatus .failed b2]) ≠ some MediaStatus.completed := by
  unfold finalStatus
  rw [lastStatusFrom_append,
    lastStatusFrom_cons none (Event.updateStatus .processing b1) up,
    lastStatusFrom_uploads up hup]
  cases b1 <;> cases b2 <;> decide

theorem mem_recordedRenditions {r : Rendition} {evs : List Event}
    (h : Event.addRendition r true ∈ evs) : r ∈ recordedRenditions evs := by
  induction evs with
  | nil => simp at h
  | cons e es ih =>
    rcases List.mem_cons.mp h with h1 | h1
    · rw [← h1]
      simp [recordedRenditions, recStep]
    · have hr := ih h1
      cases e with
      | addRendition r2 b =>
        cases b
        · simpa [recordedRenditions, recStep] using hr
        · simp only [recordedRenditions, List.foldr_cons, recStep]
          exact List.mem_cons_of_mem _ hr
      | updateStatus s b => simpa [recordedRenditions, recStep] using hr
      | upload k b => simpa [recordedRenditions, recStep] using hr

/-- The environment in which the metadata store fails every
`AddRendition` call (each failure is only logged by `ProcessMedia`)
while everything else succeeds. -/
def envAddFail : PipelineEnv :=
  { envAllOk with addRenditionOk := fun _ => false }

/-- C1 counterexample: a reachable outcome in which the pipeline
returns success and records status `completed` while zero renditions
were recorded — every `AddRendition` call failed, and `ProcessMedia`
only logs those errors (service.go lines 120-122) before setting the
status to `completed` (line 126). -/
theorem completed_with_zero_renditions :
    (processMedia envAddFail "media1").2 = true ∧
    finalStatus (processMedia envAddFail "media1").1
      = some MediaStatus.completed ∧
    recordedRenditions (processMedia envAddFail "media1").1 = [] := by decide

/-- C1 amended: provided the metadata store accepts every
`AddRendition` call, a run whose observed final status is `completed`
has recorded at least one rendition (in fact one per profile).  Without
that proviso the invariant fails, as the counterexample shows: rendition
record failures are only logged, so `completed` with zero recorded
renditions is reachable. -/
theorem completed_requires_recorded_renditions (env : PipelineEnv) (m : String)
    (hAdd : ∀ s, env.addRenditionOk s = true)
    (hc : finalStatus (processMedia env m).1 = some MediaStatus.completed) :
    recordedRenditions (processMedia env m).1 ≠ [] := by
  cases hg : env.getMediaOk with
  | false =>
    simp only [processMedia, hg] at hc
    simp [finalStatus, lastStatusFrom] at hc
  | true =>
  cases hdl : env.downloadOk with
  | false =>
    simp only [processMedia, hg, hdl, Bool.not_false, Bool.not_true, if_true,
      if_false, markFailedEvent] at hc
    exact absurd hc (finalStatus_two_updates _ _)
  | true =>
  cases hmk : env.mkdirTempOk with
  | false =>
    simp only [processMedia, hg, hdl, hmk, Bool.not_false, Bool.not_true,
      if_true, if_false, markFailedEvent] at hc
    exact absurd hc (finalStatus_two_updates _ _)
  | true =>
  cases hcr : env.createTempOk with
  | false =>
    simp only [processMedia, hg, hdl, hmk, hcr, Bool.not_false, Bool.not_true,
      if_true, if_false, markFailedEvent] at hc
    exact absurd hc (finalStatus_two_updates _ _)
  | true =>
  cases hcp : env.copyOk with
  | false =>
    simp only [processMedia, hg, hdl, hmk, hcr, hcp, Bool.not_false,
      Bool.not_true, if_true, if_false, markFailedEvent] at hc
    exact absurd hc (finalStatus_two_updates _ _)
  | true =>
  cases hPP : processorProcess env m transcodeProfiles with
  | error e =>
    simp only [processMedia, hg, hdl, hmk, hcr, hcp, hPP, Bool.not_false,
      Bool.not_true, if_true, if_false, markFailedEvent] at hc
    exact absurd hc (finalStatus_two_updates _ _)
  | ok output =>
  cases hu : (uploadProcessedFiles env m output).2 with
  | false =>
    simp only [processMedia, hg, hdl, hmk, hcr, hcp, hPP, hu, Bool.not_false,
      Bool.not_true, if_true, if_false, markFailedEvent] at hc
    exact absurd hc
      (finalStatus_upload_fail_branch _ _ _ (uploadProcessedFiles_upload env m output))
  | true =>
    have hlen : output.renditions.length = 4 := by
      have h4 := processorProcess_ok_length env m transcodeProfiles output hPP
      simpa [transcodeProfiles] using h4
    rcases hout : output.renditions with _ | ⟨r0, rest⟩
    · rw [hout] at hlen
      simp at hlen
    · have hmem : Event.addRendition
          ⟨r0.name, r0.width, r0.height, r0.bitrate, r0.codec,
           m ++ "/" ++ r0.name ++ "/playlist.m3u8"⟩ true
          ∈ (processMedia env m).1 := by
        simp only [processMedia, hg, hdl, hmk, hcr, hcp, hPP, hu, Bool.not_false,
          Bool.not_true, if_true, if_false, hout, hAdd, List.map_cons]
        simp [List.mem_append, List.mem_cons]
      have hin := mem_recordedRenditions hmem
      intro hn
      rw [hn] at hin
      simp at hin

/-- C1 witness: in the all-success environment the completed run has a
non-empty recorded rendition list. -/
theorem completed_requires_recorded_renditions_witness :
    recordedRenditions (processMedia envAllOk "media1").1 ≠ [] :=
  completed_requires_recorded_renditions envAllOk "media1" (fun _ => rfl)
    (by decide)
